import Mathlib

/-!
Shallow embedding of the agentic market-research repository
(`agentic/agent_loop.py`, `agentic/memory.py`, `agent.py`, `backtest.py`,
`utils.py`, `indicators.py`) and proofs about the behaviour of the embedded
functions.  Python numbers are modelled exactly: machine integers as `ℤ`,
float arithmetic as exact rationals `ℚ` (every float literal appearing in the
source is exactly representable as a rational, and no claim hinges on a
binary-float rounding artefact), and irrational metric values (`sqrt`,
non-integer powers) as real numbers.  Fallible Python code is modelled with
`Except PyErr`.
-/

namespace AgenticMR

/-- A JSON-shaped Python value, as produced by `json.loads` on planner
output: `None`, booleans, ints, floats, strings, lists and dicts. -/
inductive JVal where
  | vNull : JVal
  | vBool : Bool → JVal
  | vInt : ℤ → JVal
  | vFloat : ℚ → JVal
  | vStr : String → JVal
  | vList : List JVal → JVal
  | vDict : List (String × JVal) → JVal

/-- The Python exceptions the embedded fragments can raise. -/
inductive PyErr where
  | typeError : String → PyErr
  | valueError : String → PyErr
  | attributeError : String → PyErr
  | nameError : String → PyErr
deriving DecidableEq

/-- Python truthiness of a JSON-shaped value (`bool(v)`). -/
def JVal.falsy : JVal → Bool
  | .vNull => true
  | .vBool b => !b
  | .vInt n => n == 0
  | .vFloat q => q == 0
  | .vStr s => s.isEmpty
  | .vList xs => xs.isEmpty
  | .vDict kvs => kvs.isEmpty

/-- `d.get(k)` on a dict (association list; JSON objects have unique keys). -/
def dictGet (kvs : List (String × JVal)) (k : String) : Option JVal :=
  (kvs.find? (fun kv => kv.1 == k)).map (fun kv => kv.2)

/-- `d.get(k, default)`. -/
def dictGetD (kvs : List (String × JVal)) (k : String) (d : JVal) : JVal :=
  (dictGet kvs k).getD d

/-- Python whitespace for `str.strip`. -/
def isPySpace (c : Char) : Bool :=
  c = ' ' || c = '\t' || c = '\n' || c = '\r'

/-- `s.strip()`. -/
def pyStrip (s : String) : String :=
  ⟨((s.data.dropWhile isPySpace).reverse.dropWhile isPySpace).reverse⟩

/-- `s.upper()` (ASCII uppercasing, which is all the source relies on). -/
def pyUpper (s : String) : String :=
  ⟨s.data.map Char.toUpper⟩

/-- `str(x)`.  Conversion never fails in Python; the exact rendering of
floats and containers is abstracted (no claim inspects those strings). -/
def pyStr : JVal → String
  | .vNull => "None"
  | .vBool b => if b then "True" else "False"
  | .vInt n => toString n
  | .vFloat q => toString q
  | .vStr s => s
  | .vList _ => "[...]"
  | .vDict _ => "{...}"

/-- Digit-string parsing helper for `int(str)`. -/
def parseNatDigits (cs : List Char) : Option ℕ :=
  if cs.isEmpty then none
  else if cs.all Char.isDigit then
    some (cs.foldl (fun a c => a * 10 + (c.toNat - 48)) 0)
  else none

/-- `int(s)` on a string: optional surrounding whitespace, optional sign,
then decimal digits. -/
def pyIntOfStr (s : String) : Option ℤ :=
  match (pyStrip s).data with
  | '-' :: rest => (parseNatDigits rest).map (fun n => -(n : ℤ))
  | '+' :: rest => (parseNatDigits rest).map (fun n => (n : ℤ))
  | cs => (parseNatDigits cs).map (fun n => (n : ℤ))

/-- Truncation toward zero, the behaviour of Python `int(float)`. -/
def ratTrunc (q : ℚ) : ℤ :=
  if 0 ≤ q then ⌊q⌋ else ⌈q⌉

/-- Python `int(x)`: ints pass through, bools map to 0/1, floats truncate
toward zero, numeric strings parse, anything else raises. -/
def pyInt : JVal → Except PyErr ℤ
  | .vInt n => .ok n
  | .vBool b => .ok (if b then 1 else 0)
  | .vFloat q => .ok (ratTrunc q)
  | .vStr s =>
    match pyIntOfStr s with
    | some n => .ok n
    | none => .error (.valueError ("invalid literal for int: " ++ s))
  | _ => .error (.typeError "int() argument must be a number or a string")

/-- Unsigned decimal parsing helper for `float(str)`. -/
def parseUnsignedDec (cs : List Char) : Option ℚ :=
  let ip := cs.takeWhile (fun c => c ≠ '.')
  match cs.dropWhile (fun c => c ≠ '.') with
  | [] => (parseNatDigits ip).map (fun n => (n : ℚ))
  | _ :: fp =>
    if ip.isEmpty && fp.isEmpty then none
    else if ip.all Char.isDigit && fp.all Char.isDigit then
      some ((ip.foldl (fun a c => a * 10 + (c.toNat - 48)) 0 : ℕ) +
        (fp.foldl (fun a c => a * 10 + (c.toNat - 48)) 0 : ℕ) / (10 ^ fp.length : ℚ))
    else none

/-- `float(s)` on a string (decimal literals; exponents are not needed by
any claim and are treated as unparseable). -/
def pyFloatOfStr (s : String) : Option ℚ :=
  match (pyStrip s).data with
  | '-' :: rest => (parseUnsignedDec rest).map (fun q => -q)
  | '+' :: rest => parseUnsignedDec rest
  | cs => parseUnsignedDec cs

/-- Python `float(x)`. -/
def pyFloat : JVal → Except PyErr ℚ
  | .vFloat q => .ok q
  | .vInt n => .ok (n : ℚ)
  | .vBool b => .ok (if b then 1 else 0)
  | .vStr s =>
    match pyFloatOfStr s with
    | some q => .ok q
    | none => .error (.valueError ("could not convert string to float: " ++ s))
  | _ => .error (.typeError "float() argument must be a string or a real number")

/-- Round-half-to-even at integer precision, the rounding used by Python
`round`. -/
def roundHalfEven (q : ℚ) : ℤ :=
  if q - (⌊q⌋ : ℚ) < 1 / 2 then ⌊q⌋
  else if 1 / 2 < q - (⌊q⌋ : ℚ) then ⌊q⌋ + 1
  else if ⌊q⌋ % 2 = 0 then ⌊q⌋ else ⌊q⌋ + 1

/-- `round(q, 2)`. -/
def pyRound2 (q : ℚ) : ℚ :=
  (roundHalfEven (q * 100) : ℚ) / 100

/-- Python iteration `list(v)` / `for x in v`: lists yield their elements,
strings their characters, dicts their keys; other truthy values raise
`TypeError`. -/
def pyIterate : JVal → Except PyErr (List JVal)
  | .vList xs => .ok xs
  | .vStr s => .ok (s.data.map (fun c => .vStr ⟨[c]⟩))
  | .vDict kvs => .ok (kvs.map (fun kv => .vStr kv.1))
  | _ => .error (.typeError "object is not iterable")

/-- `(v or default)` followed by iteration, the `args.get(k) or [...]`
pattern of `_validate_plan`. -/
def orIterate (v : JVal) (default : List JVal) : Except PyErr (List JVal) :=
  if v.falsy then .ok default else pyIterate v

/-! ## Plan validator (`agentic/agent_loop.py`, `_validate_plan`) -/

/-- `ALLOWED_TOOLS` (agent_loop.py line 16). -/
def ALLOWED_TOOLS : List String := ["screen", "analyze", "optimize_backtest", "backtest"]

/-- `MAX_PLAN_STEPS` (agent_loop.py line 17). -/
def MAX_PLAN_STEPS : ℕ := 6

/-- A sanitized plan step: the `{"tool": t, "args": args}` dict appended by
`_validate_plan`.  Every sanitized `args` dict has a fixed key schema per
tool, so `json.dumps(args, sort_keys=True)` is injective on sanitized args
and the dedup key `(t, json.dumps(args, sort_keys=True))` of two sanitized
steps coincides exactly when the steps are equal; `Step` equality therefore
models canonical-key equality. -/
inductive Step where
  | screen : List String → ℤ → Step
  | analyze : String → ℤ → Step
  | optimizeBacktest : String → ℤ → List ℤ → List ℤ → ℚ → ℤ → Step
  | backtest : String → ℤ → ℤ → ℤ → Step
deriving DecidableEq

/-- The `"tool"` entry of a sanitized step. -/
def Step.tool : Step → String
  | .screen _ _ => "screen"
  | .analyze _ _ => "analyze"
  | .optimizeBacktest _ _ _ _ _ _ => "optimize_backtest"
  | .backtest _ _ _ _ => "backtest"

/-- `fast < slow` for `backtest` steps (vacuous for the other tools). -/
def Step.fastSlowOk : Step → Prop
  | .backtest _ f s _ => f < s
  | _ => True

/-- `sorted(set(xs))`: ascending sort of the distinct values. -/
def pySortedSet (xs : List ℤ) : List ℤ :=
  List.insertionSort (fun a b => a ≤ b) xs.dedup

/-- `s.get(key)` where `s` may be any value: non-dicts have no `.get`
attribute and raise `AttributeError`. -/
def pyGetAttrDict : JVal → Except PyErr (List (String × JVal))
  | .vDict kvs => .ok kvs
  | _ => .error (.attributeError "object has no attribute get")

/-- `(s.get("tool") or "").strip()` (agent_loop.py line 29): falsy values
give the empty string, strings are stripped, other truthy values have no
`.strip` attribute. -/
def toolName (kvs : List (String × JVal)) : Except PyErr String :=
  let v := dictGetD kvs "tool" .vNull
  if v.falsy then .ok ""
  else
    match v with
    | .vStr s => .ok (pyStrip s)
    | _ => .error (.attributeError "object has no attribute strip")

/-- `dict(s.get("args") or {})` (agent_loop.py line 34). -/
def pyToDict (v : JVal) : Except PyErr (List (String × JVal)) :=
  if v.falsy then .ok []
  else
    match v with
    | .vDict kvs => .ok kvs
    | _ => .error (.typeError "cannot convert object to a dict")

/-- Sanitization of a `screen` step (agent_loop.py lines 36–40). -/
def sanitizeScreen (args : List (String × JVal)) : Except PyErr (Option Step) :=
  match orIterate (dictGetD args "symbols" .vNull) [] with
  | .error e => .error e
  | .ok symsRaw =>
    let symbols := (symsRaw.map (fun x => pyUpper (pyStr x))).take 50
    match pyInt (dictGetD args "days" (.vInt 365)) with
    | .error e => .error e
    | .ok days0 => .ok (some (.screen symbols (max 60 (min days0 2000))))

/-- Sanitization of an `analyze` step (agent_loop.py lines 42–49). -/
def sanitizeAnalyze (args : List (String × JVal)) : Except PyErr (Option Step) :=
  let sym := pyUpper (pyStr (dictGetD args "symbol" (.vStr "")))
  match pyInt (dictGetD args "days" (.vInt 365)) with
  | .error e => .error e
  | .ok days0 =>
    if sym = "" then .ok none
    else .ok (some (.analyze sym (max 60 (min days0 2000))))

/-- Sanitization of an `optimize_backtest` step (agent_loop.py lines
51–73).  The list comprehensions evaluate `int(v)` on every element of the
source iterable (so a single non-numeric element raises) before filtering
to the legal range. -/
def sanitizeOptimize (args : List (String × JVal)) : Except PyErr (Option Step) :=
  match pyInt (dictGetD args "days" (.vInt 1200)) with
  | .error e => .error e
  | .ok days0 =>
  match orIterate (dictGetD args "fast_values" .vNull) [.vInt 10, .vInt 20, .vInt 50] with
  | .error e => .error e
  | .ok fvRaw =>
  match fvRaw.mapM pyInt with
  | .error e => .error e
  | .ok fvInts =>
  match orIterate (dictGetD args "slow_values" .vNull)
      [.vInt 100, .vInt 150, .vInt 200, .vInt 250] with
  | .error e => .error e
  | .ok svRaw =>
  match svRaw.mapM pyInt with
  | .error e => .error e
  | .ok svInts =>
  match pyFloat (dictGetD args "split" (.vFloat (7 / 10))) with
  | .error e => .error e
  | .ok split0 =>
  match pyInt (dictGetD args "top_k" (.vInt 5)) with
  | .error e => .error e
  | .ok topK0 =>
    if pyUpper (pyStr (dictGetD args "symbol" (.vStr ""))) = "" then .ok none
    else
      .ok (some (.optimizeBacktest (pyUpper (pyStr (dictGetD args "symbol" (.vStr ""))))
        (max 200 (min days0 3000))
        ((pySortedSet (fvInts.filter (fun v => decide (2 ≤ v ∧ v ≤ 200)))).take 8)
        ((pySortedSet (svInts.filter (fun v => decide (5 ≤ v ∧ v ≤ 400)))).take 8)
        (pyRound2 (max (1 / 2) (min split0 (9 / 10))))
        (max 1 (min topK0 10))))

/-- Sanitization of a `backtest` step (agent_loop.py lines 75–86): the
step is dropped if the symbol is empty or `fast >= slow` (checked before
clamping), otherwise `days`, `fast` and `slow` are clamped. -/
def sanitizeBacktest (args : List (String × JVal)) : Except PyErr (Option Step) :=
  let sym := pyUpper (pyStr (dictGetD args "symbol" (.vStr "")))
  match pyInt (dictGetD args "fast" (.vInt 50)) with
  | .error e => .error e
  | .ok fast0 =>
  match pyInt (dictGetD args "slow" (.vInt 200)) with
  | .error e => .error e
  | .ok slow0 =>
  match pyInt (dictGetD args "days" (.vInt 1200)) with
  | .error e => .error e
  | .ok days0 =>
    if sym = "" ∨ slow0 ≤ fast0 then .ok none
    else
      .ok (some (.backtest sym (max 2 (min fast0 200)) (max 5 (min slow0 400))
        (max 200 (min days0 3000))))

/-- The per-step body of the `_validate_plan` loop before deduplication
(agent_loop.py lines 29–86): `.ok none` models a dropped step. -/
def sanitizeStep (s : JVal) : Except PyErr (Option Step) :=
  match pyGetAttrDict s with
  | .error e => .error e
  | .ok kvs =>
  match toolName kvs with
  | .error e => .error e
  | .ok t =>
    if t ∈ ALLOWED_TOOLS then
      match pyToDict (dictGetD kvs "args" .vNull) with
      | .error e => .error e
      | .ok args =>
        if t = "screen" then sanitizeScreen args
        else if t = "analyze" then sanitizeAnalyze args
        else if t = "optimize_backtest" then sanitizeOptimize args
        else sanitizeBacktest args
    else .ok none

/-- The `_validate_plan` loop with its `seen` set of canonical keys
(agent_loop.py lines 26–93). -/
def validateSteps : List JVal → List Step → Except PyErr (List Step)
  | [], _ => .ok []
  | s :: rest, seen =>
    match sanitizeStep s with
    | .error e => .error e
    | .ok none => validateSteps rest seen
    | .ok (some st) =>
      if st ∈ seen then validateSteps rest seen
      else
        match validateSteps rest (st :: seen) with
        | .error e => .error e
        | .ok tail => .ok (st :: tail)

/-- `list(plan.get("steps") or [])` (agent_loop.py line 24). -/
def getSteps (plan : JVal) : Except PyErr (List JVal) :=
  match pyGetAttrDict plan with
  | .error e => .error e
  | .ok kvs => orIterate (dictGetD kvs "steps" .vNull) []

/-- `_validate_plan` (agent_loop.py lines 19–96), returning the cleaned
`steps` list that the source stores back into the plan. -/
def _validate_plan (plan : JVal) : Except PyErr (List Step) :=
  match getSteps plan with
  | .error e => .error e
  | .ok steps => validateSteps (steps.take MAX_PLAN_STEPS) []

/-- The sanitized form of a raw step, `none` when the step is dropped or
its sanitization raises. -/
def sanitizedOf (s : JVal) : Option Step :=
  match sanitizeStep s with
  | .ok r => r
  | .error _ => none

theorem validateSteps_length : ∀ (l : List JVal) (seen out : List Step),
    validateSteps l seen = .ok out → out.length ≤ l.length := by
  intro l
  induction l with
  | nil =>
    intro seen out h
    simp only [validateSteps, Except.ok.injEq] at h
    simp [← h]
  | cons s rest ih =>
    intro seen out h
    simp only [validateSteps] at h
    cases hs : sanitizeStep s with
    | error e => rw [hs] at h; simp at h
    | ok o =>
      rw [hs] at h
      cases o with
      | none => exact (ih seen out h).trans (by simp)
      | some st =>
        simp only at h
        by_cases hmem : st ∈ seen
        · rw [if_pos hmem] at h
          exact (ih seen out h).trans (by simp)
        · rw [if_neg hmem] at h
          cases ht : validateSteps rest (st :: seen) with
          | error e => rw [ht] at h; simp at h
          | ok tail =>
            rw [ht] at h
            injection h with h
            subst h
            simpa using Nat.succ_le_succ (ih _ _ ht)

theorem validateSteps_disjoint_nodup : ∀ (l : List JVal) (seen out : List Step),
    validateSteps l seen = .ok out → (∀ st ∈ out, st ∉ seen) ∧ out.Nodup := by
  intro l
  induction l with
  | nil =>
    intro seen out h
    simp only [validateSteps, Except.ok.injEq] at h
    simp [← h]
  | cons s rest ih =>
    intro seen out h
    simp only [validateSteps] at h
    cases hs : sanitizeStep s with
    | error e => rw [hs] at h; simp at h
    | ok o =>
      rw [hs] at h
      cases o with
      | none => exact ih seen out h
      | some st =>
        simp only at h
        by_cases hmem : st ∈ seen
        · rw [if_pos hmem] at h
          exact ih seen out h
        · rw [if_neg hmem] at h
          cases ht : validateSteps rest (st :: seen) with
          | error e => rw [ht] at h; simp at h
          | ok tail =>
            rw [ht] at h
            injection h with h
            subst h
            obtain ⟨hdisj, hnd⟩ := ih _ _ ht
            constructor
            · intro x hx
              rcases List.mem_cons.mp hx with rfl | hx
              · exact hmem
              · intro hxseen
                exact hdisj x hx (List.mem_cons_of_mem _ hxseen)
            · refine List.nodup_cons.mpr ⟨?_, hnd⟩
              intro hst
              exact hdisj st hst (List.mem_cons_self _ _)

theorem validateSteps_sublist : ∀ (l : List JVal) (seen out : List Step),
    validateSteps l seen = .ok out → out.Sublist (l.filterMap sanitizedOf) := by
  intro l
  induction l with
  | nil =>
    intro seen out h
    simp only [validateSteps, Except.ok.injEq] at h
    simp [← h]
  | cons s rest ih =>
    intro seen out h
    simp only [validateSteps] at h
    cases hs : sanitizeStep s with
    | error e => rw [hs] at h; simp at h
    | ok o =>
      rw [hs] at h
      cases o with
      | none =>
        rw [List.filterMap_cons_none (show sanitizedOf s = none by simp [sanitizedOf, hs])]
        exact ih seen out h
      | some st =>
        simp only at h
        rw [List.filterMap_cons_some (show sanitizedOf s = some st by simp [sanitizedOf, hs])]
        by_cases hmem : st ∈ seen
        · rw [if_pos hmem] at h
          exact (ih seen out h).cons st
        · rw [if_neg hmem] at h
          cases ht : validateSteps rest (st :: seen) with
          | error e => rw [ht] at h; simp at h
          | ok tail =>
            rw [ht] at h
            injection h with h
            subst h
            exact (ih _ _ ht).cons₂ st

theorem validateSteps_total : ∀ (l : List JVal) (seen : List Step),
    (∀ s ∈ l, ∃ r, sanitizeStep s = .ok r) →
    ∃ out, validateSteps l seen = .ok out := by
  intro l
  induction l with
  | nil => intro seen _; exact ⟨[], rfl⟩
  | cons s rest ih =>
    intro seen hall
    obtain ⟨r, hr⟩ := hall s (List.mem_cons_self _ _)
    have hrest : ∀ x ∈ rest, ∃ r, sanitizeStep x = .ok r :=
      fun x hx => hall x (List.mem_cons_of_mem _ hx)
    cases r with
    | none =>
      obtain ⟨out, hout⟩ := ih seen hrest
      exact ⟨out, by simp [validateSteps, hr, hout]⟩
    | some st =>
      by_cases hmem : st ∈ seen
      · obtain ⟨out, hout⟩ := ih seen hrest
        exact ⟨out, by simp [validateSteps, hr, hmem, hout]⟩
      · obtain ⟨tail, htail⟩ := ih (st :: seen) hrest
        exact ⟨st :: tail, by simp [validateSteps, hr, hmem, htail]⟩

theorem sanitizeScreen_fastSlowOk {args : List (String × JVal)} {st : Step}
    (h : sanitizeScreen args = .ok (some st)) : st.fastSlowOk := by
  unfold sanitizeScreen at h
  split at h
  · simp at h
  · split at h
    · simp at h
    · injection h with h
      injection h with h
      subst h
      trivial

theorem sanitizeAnalyze_fastSlowOk {args : List (String × JVal)} {st : Step}
    (h : sanitizeAnalyze args = .ok (some st)) : st.fastSlowOk := by
  unfold sanitizeAnalyze at h
  split at h
  · simp at h
  · dsimp only at h
    split at h
    · simp at h
    · injection h with h
      injection h with h
      subst h
      trivial

theorem sanitizeOptimize_fastSlowOk {args : List (String × JVal)} {st : Step}
    (h : sanitizeOptimize args = .ok (some st)) : st.fastSlowOk := by
  unfold sanitizeOptimize at h
  split at h
  · simp at h
  · split at h
    · simp at h
    · split at h
      · simp at h
      · split at h
        · simp at h
        · split at h
          · simp at h
          · split at h
            · simp at h
            · split at h
              · simp at h
              · split at h
                · simp at h
                · injection h with h
                  injection h with h
                  subst h
                  trivial

theorem sanitizeBacktest_fastSlowOk {args : List (String × JVal)} {st : Step}
    (h : sanitizeBacktest args = .ok (some st)) : st.fastSlowOk := by
  unfold sanitizeBacktest at h
  split at h
  · simp at h
  · split at h
    · simp at h
    · split at h
      · simp at h
      · dsimp only at h
        split at h
        · simp at h
        · rename_i hneg
          injection h with h
          injection h with h
          subst h
          have : ¬(_ ≤ _) := fun hle => hneg (Or.inr hle)
          simp only [Step.fastSlowOk]
          omega

theorem sanitizeStep_fastSlowOk {s : JVal} {st : Step}
    (h : sanitizeStep s = .ok (some st)) : st.fastSlowOk := by
  unfold sanitizeStep at h
  split at h
  · simp at h
  · split at h
    · simp at h
    · split at h
      · split at h
        · simp at h
        · split at h
          · exact sanitizeScreen_fastSlowOk h
          · split at h
            · exact sanitizeAnalyze_fastSlowOk h
            · split at h
              · exact sanitizeOptimize_fastSlowOk h
              · exact sanitizeBacktest_fastSlowOk h
      · simp at h

theorem validate_plan_split {plan : JVal} {out : List Step}
    (h : _validate_plan plan = .ok out) :
    ∃ steps, getSteps plan = .ok steps ∧
      validateSteps (steps.take MAX_PLAN_STEPS) [] = .ok out := by
  unfold _validate_plan at h
  cases hg : getSteps plan with
  | error e => rw [hg] at h; simp at h
  | ok steps => rw [hg] at h; exact ⟨steps, rfl, h⟩

/-- **C1**: whenever `_validate_plan` produces a cleaned plan, that plan has
at most `MAX_PLAN_STEPS = 6` steps, every step's tool is in the whitelist,
no two steps share a canonical `(tool, sorted-argument-serialization)` key
(modelled as `Step` equality, see `Step`), and every `backtest` step
satisfies `fast < slow`. -/
theorem validate_plan_invariants (plan : JVal) (out : List Step)
    (h : _validate_plan plan = .ok out) :
    out.length ≤ MAX_PLAN_STEPS ∧
      (∀ st ∈ out, st.tool ∈ ALLOWED_TOOLS) ∧
      out.Nodup ∧
      (∀ st ∈ out, st.fastSlowOk) := by
  obtain ⟨steps, hsteps, hval⟩ := validate_plan_split h
  refine ⟨?_, ?_, ?_, ?_⟩
  · exact (validateSteps_length _ _ _ hval).trans (List.length_take_le _ _)
  · intro st _
    cases st <;> simp [Step.tool, ALLOWED_TOOLS]
  · exact (validateSteps_disjoint_nodup _ _ _ hval).2
  · intro st hst
    have hmem := (validateSteps_sublist _ _ _ hval).subset hst
    obtain ⟨s, _, hok⟩ := List.mem_filterMap.mp hmem
    unfold sanitizedOf at hok
    cases hsan : sanitizeStep s with
    | error e => rw [hsan] at hok; simp at hok
    | ok r =>
      rw [hsan] at hok
      simp only at hok
      subst hok
      exact sanitizeStep_fastSlowOk hsan

/-- A concrete plan mixing a valid `backtest` step with a disallowed tool. -/
def c1Plan : JVal :=
  .vDict [("steps", .vList [
    .vDict [("tool", .vStr "backtest"),
            ("args", .vDict [("symbol", .vStr "msft"), ("fast", .vInt 20),
                             ("slow", .vInt 100)])],
    .vDict [("tool", .vStr "delete_db"), ("args", .vDict [])]])]

/-- Witness for C1: `validate_plan_invariants` instantiated on `c1Plan`,
whose validation yields exactly one clamped `backtest` step. -/
theorem validate_plan_invariants_witness :
    [Step.backtest "MSFT" 20 100 1200].length ≤ MAX_PLAN_STEPS ∧
      (∀ st ∈ [Step.backtest "MSFT" 20 100 1200], st.tool ∈ ALLOWED_TOOLS) ∧
      [Step.backtest "MSFT" 20 100 1200].Nodup ∧
      (∀ st ∈ [Step.backtest "MSFT" 20 100 1200], st.fastSlowOk) :=
  validate_plan_invariants c1Plan [Step.backtest "MSFT" 20 100 1200] (by rfl)

/-- A plan whose only step has a non-numeric `days` argument. -/
def c5GarbagePlan : JVal :=
  .vDict [("steps", .vList [
    .vDict [("tool", .vStr "analyze"),
            ("args", .vDict [("symbol", .vStr "AAPL"), ("days", .vStr "soon")])]])]

/-- **C5 counterexample**: `_validate_plan` does *not* tolerate arbitrary
garbage argument values — on a plan whose `analyze` step carries the
non-numeric `days` value `"soon"`, the bare `int(...)` coercion on line 44
of agent_loop.py raises `ValueError` instead of returning a cleaned plan. -/
theorem validate_plan_garbage_raises :
    _validate_plan c5GarbagePlan =
      .error (.valueError "invalid literal for int: soon") := by rfl

/-- **C5 (amended)**: `_validate_plan` terminates with a structurally valid
cleaned plan (possibly with zero steps) for every raw plan whose first six
steps sanitize without raising, i.e. whose numeric argument fields coerce
via `int`/`float`; non-coercible values (such as a non-numeric `days`)
propagate as exceptions instead. -/
theorem validate_plan_ok_of_sanitize_ok (plan : JVal) (steps : List JVal)
    (hsteps : getSteps plan = .ok steps)
    (hall : ∀ s ∈ steps.take MAX_PLAN_STEPS, ∃ r, sanitizeStep s = .ok r) :
    ∃ out, _validate_plan plan = .ok out := by
  obtain ⟨out, hout⟩ := validateSteps_total _ [] hall
  exact ⟨out, by unfold _validate_plan; rw [hsteps]; exact hout⟩

/-- A garbage plan (unknown tool, numeric-string `days`) that nevertheless
sanitizes without raising. -/
def c5OkPlan : JVal :=
  .vDict [("steps", .vList [
    .vDict [("tool", .vStr "drop_tables")],
    .vDict [("tool", .vStr "analyze"),
            ("args", .vDict [("symbol", .vStr "nvda"), ("days", .vStr "90")])]])]

/-- Witness for the amended C5: `c5OkPlan` validates successfully. -/
theorem validate_plan_ok_of_sanitize_ok_witness :
    ∃ out, _validate_plan c5OkPlan = .ok out :=
  validate_plan_ok_of_sanitize_ok c5OkPlan
    [.vDict [("tool", .vStr "drop_tables")],
     .vDict [("tool", .vStr "analyze"),
             ("args", .vDict [("symbol", .vStr "nvda"), ("days", .vStr "90")])]]
    (by rfl)
    (by
      intro s hs
      rw [show ([.vDict [("tool", .vStr "drop_tables")],
        .vDict [("tool", .vStr "analyze"),
                ("args", .vDict [("symbol", .vStr "nvda"),
                                 ("days", .vStr "90")])]].take MAX_PLAN_STEPS)
        = [JVal.vDict [("tool", .vStr "drop_tables")],
           .vDict [("tool", .vStr "analyze"),
                   ("args", .vDict [("symbol", .vStr "nvda"),
                                    ("days", .vStr "90")])]] from rfl] at hs
      rcases List.mem_cons.mp hs with rfl | hs
      · exact ⟨_, rfl⟩
      · rcases List.mem_cons.mp hs with rfl | hs
        · exact ⟨_, rfl⟩
        · exact absurd hs (List.not_mem_nil _))

/-- **C10**: the cleaned steps are a sublist — same relative order — of the
sanitized forms of the first `MAX_PLAN_STEPS` raw steps: validation never
reorders surviving steps. -/
theorem validate_plan_preserves_order (plan : JVal) (out : List Step)
    (h : _validate_plan plan = .ok out) :
    ∃ steps, getSteps plan = .ok steps ∧
      out.Sublist ((steps.take MAX_PLAN_STEPS).filterMap sanitizedOf) := by
  obtain ⟨steps, hsteps, hval⟩ := validate_plan_split h
  exact ⟨steps, hsteps, validateSteps_sublist _ _ _ hval⟩

/-- A plan with a duplicate step, an unknown tool and two distinct
`analyze` steps. -/
def c10Plan : JVal :=
  .vDict [("steps", .vList [
    .vDict [("tool", .vStr "analyze"),
            ("args", .vDict [("symbol", .vStr "good")])],
    .vDict [("tool", .vStr "format_disk")],
    .vDict [("tool", .vStr "analyze"),
            ("args", .vDict [("symbol", .vStr "good")])],
    .vDict [("tool", .vStr "analyze"),
            ("args", .vDict [("symbol", .vStr "other")])]])]

/-- Witness for C10: order preservation instantiated on `c10Plan`. -/
theorem validate_plan_preserves_order_witness :
    ∃ steps, getSteps c10Plan = .ok steps ∧
      [Step.analyze "GOOD" 365, Step.analyze "OTHER" 365].Sublist
        ((steps.take MAX_PLAN_STEPS).filterMap sanitizedOf) :=
  validate_plan_preserves_order c10Plan
    [Step.analyze "GOOD" 365, Step.analyze "OTHER" 365] (by rfl)

/-! ## Strategy backtester (`backtest.py`, `indicators.py`, `utils.py`)

Price series are modelled as `List ℚ` — the output of `_to_1d_series` on a
cleaned series (1-D, numeric, no NaN).  `Option ℚ` models a possibly-NaN
scalar; series-level NaNs appear only through `smaAt`, exactly where pandas
produces them. -/

/-- `sma(series, w) = series.rolling(w, min_periods=w).mean()` at index
`i` (indicators.py line 6): defined once a full window is available,
`none` models NaN. -/
def smaAt (p : List ℚ) (w : ℕ) (i : ℕ) : Option ℚ :=
  if w ≤ i + 1 then some (((p.drop (i + 1 - w)).take w).sum / w) else none

/-- `(fast_sma > slow_sma).astype(int).shift(1).reindex(...).fillna(0)` at
index `i` (backtest.py line 45); pandas comparisons involving NaN are
`False`. -/
def signalAt (p : List ℚ) (f s : ℕ) (i : ℕ) : ℚ :=
  if i = 0 then 0
  else
    match smaAt p f (i - 1), smaAt p s (i - 1) with
    | some a, some b => if b < a then 1 else 0
    | _, _ => 0

/-- `prices.pct_change().fillna(0.0)` at index `i` (backtest.py line 46). -/
def dailyRet (p : List ℚ) (i : ℕ) : ℚ :=
  if i = 0 then 0 else p.getD i 0 / p.getD (i - 1) 0 - 1

/-- `strat_ret = daily_ret * signal` (backtest.py line 47). -/
def stratRet (p : List ℚ) (f s : ℕ) : List ℚ :=
  (List.range p.length).map (fun i => dailyRet p i * signalAt p f s i)

/-- `equity = (1.0 + strat_ret).cumprod()` (backtest.py line 48). -/
def equityList (p : List ℚ) (f s : ℕ) : List ℚ :=
  (List.range p.length).map (fun i =>
    ((List.range (i + 1)).map (fun j => 1 + dailyRet p j * signalAt p f s j)).prod)

/-- `(strat_ret > 0).mean()`, the `WinRate` metric (backtest.py line 54). -/
def winRate (rets : List ℚ) : ℚ :=
  ((rets.filter (fun r => decide (0 < r))).length : ℚ) / (rets.length : ℚ)

/-- `max_drawdown` (utils.py lines 5–12): running peak, fractional
drawdown clipped to `[0,1]`, maximum.  On rational inputs the inf/NaN
dropping of line 6 is the identity; the final `.max()` over the non-empty
clipped series equals a `foldl max 0` because every clipped entry is
non-negative. -/
def max_drawdown (equity : List ℚ) : ℚ :=
  if equity.isEmpty then 0
  else
    ((List.range equity.length).map (fun i =>
      let peak := (equity.take (i + 1)).foldl max (equity.getD i 0)
      min 1 (max 0 ((peak - equity.getD i 0) / peak)))).foldl max 0

/-- Mean of a rational series, as a real number. -/
noncomputable def listMean (xs : List ℚ) : ℝ :=
  ((xs.sum : ℚ) : ℝ) / xs.length

/-- Population standard deviation (`std(ddof=0)`). -/
noncomputable def listStd0 (xs : List ℚ) : ℝ :=
  Real.sqrt ((xs.map (fun x => ((x : ℚ) - listMean xs) ^ 2)).sum / xs.length)

/-- `sharpe` (utils.py lines 26–31) with the default `rf = 0.0` and
`periods_per_year = 252` used by `backtest_sma_cross`. -/
noncomputable def sharpe (returns : List ℚ) : ℝ :=
  if returns.isEmpty ∨ listStd0 returns = 0 then 0
  else Real.sqrt 252 * (listMean returns / (listStd0 returns + 1 / 10 ^ 12))

/-- `cagr` (utils.py lines 14–24) with `periods_per_year = 252`. -/
noncomputable def cagr (equity : List ℚ) : ℝ :=
  if equity.isEmpty ∨ equity.headD 0 ≤ 0 then 0
  else
    let years : ℝ := (equity.length : ℝ) / 252
    if years ≤ 0 then 0
    else
      let total : ℝ := ((equity.getLastD 0 : ℚ) : ℝ) / ((equity.headD 0 : ℚ) : ℝ)
      if total ≤ 0 then 0 else total ^ (1 / years) - 1

/-- The metrics dict of `backtest_sma_cross` (backtest.py lines 50–55).
`MaxDrawdown` and `WinRate` are exact rationals; `CAGR` and `Sharpe`
involve roots/powers and live in `ℝ`. -/
structure Metrics where
  CAGR : ℝ
  Sharpe : ℝ
  MaxDrawdown : ℚ
  WinRate : ℚ

/-- `BacktestResult` (backtest.py lines 9–13). -/
structure BacktestResult where
  equity : List ℚ
  returns : List ℚ
  metrics : Metrics

/-- `backtest_sma_cross` (backtest.py lines 30–56) on an already-cleaned
price series.  The two `ValueError` guards of lines 35–40 come first; a
non-positive window additionally raises inside pandas `rolling`. -/
noncomputable def backtest_sma_cross (prices : List ℚ) (fast slow : ℤ) :
    Except String BacktestResult :=
  if slow ≤ fast then .error "For SMA cross, fast must be < slow."
  else if (prices.length : ℤ) < max slow fast + 5 then .error "Not enough data"
  else if fast ≤ 0 then .error "window must be a positive integer"
  else
    .ok { equity := equityList prices fast.toNat slow.toNat,
          returns := stratRet prices fast.toNat slow.toNat,
          metrics :=
            { CAGR := cagr (equityList prices fast.toNat slow.toNat),
              Sharpe := sharpe (stratRet prices fast.toNat slow.toNat),
              MaxDrawdown := max_drawdown (equityList prices fast.toNat slow.toNat),
              WinRate := winRate (stratRet prices fast.toNat slow.toNat) } }

theorem backtest_ok (prices : List ℚ) (fast slow : ℤ)
    (hlen : max slow fast + 5 ≤ (prices.length : ℤ))
    (hfs : fast < slow) (hf : 0 < fast) :
    backtest_sma_cross prices fast slow =
      .ok { equity := equityList prices fast.toNat slow.toNat,
            returns := stratRet prices fast.toNat slow.toNat,
            metrics :=
              { CAGR := cagr (equityList prices fast.toNat slow.toNat),
                Sharpe := sharpe (stratRet prices fast.toNat slow.toNat),
                MaxDrawdown := max_drawdown (equityList prices fast.toNat slow.toNat),
                WinRate := winRate (stratRet prices fast.toNat slow.toNat) } } := by
  unfold backtest_sma_cross
  rw [if_neg (not_le.mpr hfs), if_neg (not_lt.mpr hlen), if_neg (not_le.mpr hf)]

theorem signalAt_cases (p : List ℚ) (f s i : ℕ) :
    signalAt p f s i = 0 ∨ signalAt p f s i = 1 := by
  unfold signalAt
  split
  · exact Or.inl rfl
  · split
    · split_ifs
      · exact Or.inr rfl
      · exact Or.inl rfl
    · exact Or.inl rfl

theorem one_add_strat_pos (p : List ℚ) (f s : ℕ) (hpos : ∀ x ∈ p, 0 < x)
    (j : ℕ) (hj : j < p.length) : 0 < 1 + dailyRet p j * signalAt p f s j := by
  rcases signalAt_cases p f s j with hsig | hsig
  · rw [hsig, mul_zero]
    norm_num
  · rw [hsig, mul_one]
    unfold dailyRet
    split
    · norm_num
    · rename_i hj0
      have hjm : j - 1 < p.length := by omega
      have h1 : 0 < p.getD j 0 := by
        rw [List.getD_eq_getElem p 0 hj]
        exact hpos _ (List.getElem_mem hj)
      have h2 : 0 < p.getD (j - 1) 0 := by
        rw [List.getD_eq_getElem p 0 hjm]
        exact hpos _ (List.getElem_mem hjm)
      have := div_pos h1 h2
      linarith

theorem length_pos_of_backtest (prices : List ℚ) (fast slow : ℤ)
    (hlen : max slow fast + 5 ≤ (prices.length : ℤ)) (hfs : fast < slow)
    (hf : 0 < fast) : 0 < prices.length := by
  have h1 : slow ≤ max slow fast := le_max_left _ _
  omega

/-- **C2**: under the documented preconditions (`fast < slow`, positive
windows, cleaned strictly-positive prices, length ≥ `max(fast,slow)+5`),
`backtest_sma_cross` succeeds and its equity curve has the same length as
the input series, starts at `1.0`, and is strictly positive throughout. -/
theorem backtest_equity_spec (prices : List ℚ) (fast slow : ℤ)
    (hpos : ∀ x ∈ prices, 0 < x)
    (hlen : max slow fast + 5 ≤ (prices.length : ℤ))
    (hfs : fast < slow) (hf : 0 < fast) :
    ∃ res, backtest_sma_cross prices fast slow = .ok res ∧
      res.equity.length = prices.length ∧
      res.equity.getD 0 0 = 1 ∧
      ∀ x ∈ res.equity, 0 < x := by
  refine ⟨_, backtest_ok prices fast slow hlen hfs hf, ?_, ?_, ?_⟩
  · simp [equityList]
  · have hn := length_pos_of_backtest prices fast slow hlen hfs hf
    obtain ⟨m, hm⟩ : ∃ m, prices.length = m + 1 := ⟨prices.length - 1, by omega⟩
    unfold equityList
    rw [hm, List.range_succ_eq_map]
    simp [dailyRet, show List.range 1 = [0] from rfl]
  · intro x hx
    unfold equityList at hx
    obtain ⟨i, hi, hxeq⟩ := List.mem_map.mp hx
    have hi' : i < prices.length := List.mem_range.mp hi
    subst hxeq
    apply List.prod_pos
    intro y hy
    obtain ⟨j, hj, hyeq⟩ := List.mem_map.mp hy
    have hj' : j < prices.length := lt_of_lt_of_le (List.mem_range.mp hj) hi'
    subst hyeq
    exact one_add_strat_pos prices _ _ hpos j hj'

/-- A constant price series long enough for a `2/3` crossover backtest. -/
def c2Prices : List ℚ := List.replicate 8 1

/-- Witness for C2: the spec instantiated on an 8-bar constant series with
`fast = 2`, `slow = 3`. -/
theorem backtest_equity_spec_witness :
    ∃ res, backtest_sma_cross c2Prices 2 3 = .ok res ∧
      res.equity.length = c2Prices.length ∧
      res.equity.getD 0 0 = 1 ∧
      ∀ x ∈ res.equity, 0 < x :=
  backtest_equity_spec c2Prices 2 3
    (by intro x hx; rw [List.eq_of_mem_replicate hx]; norm_num)
    (by simp [c2Prices]) (by norm_num) (by norm_num)

theorem foldl_max_bounds (l : List ℚ) (init : ℚ) (h0 : 0 ≤ init) (h1 : init ≤ 1)
    (hl : ∀ x ∈ l, 0 ≤ x ∧ x ≤ 1) :
    0 ≤ l.foldl max init ∧ l.foldl max init ≤ 1 := by
  induction l generalizing init with
  | nil => exact ⟨h0, h1⟩
  | cons a l ih =>
    obtain ⟨ha0, ha1⟩ := hl a (List.mem_cons_self _ _)
    exact ih (max init a) (le_max_of_le_left h0) (max_le h1 ha1)
      (fun x hx => hl x (List.mem_cons_of_mem _ hx))

theorem max_drawdown_bounds (e : List ℚ) :
    0 ≤ max_drawdown e ∧ max_drawdown e ≤ 1 := by
  unfold max_drawdown
  split
  · norm_num
  · apply foldl_max_bounds _ _ le_rfl zero_le_one
    intro x hx
    obtain ⟨i, _, hxeq⟩ := List.mem_map.mp hx
    subst hxeq
    constructor
    · exact le_min_iff.mpr ⟨zero_le_one, le_max_left _ _⟩
    · exact min_le_left _ _

theorem winRate_bounds (rets : List ℚ) : 0 ≤ winRate rets ∧ winRate rets ≤ 1 := by
  unfold winRate
  rcases Nat.eq_zero_or_pos rets.length with h | h
  · rw [h]
    norm_num
  · constructor
    · positivity
    · rw [div_le_one (by exact_mod_cast h)]
      exact_mod_cast List.length_filter_le _ _

/-- **C7**: for every backtest satisfying the preconditions, the returned
`MaxDrawdown` and `WinRate` metrics lie in `[0,1]`. -/
theorem backtest_metric_bounds (prices : List ℚ) (fast slow : ℤ)
    (_hpos : ∀ x ∈ prices, 0 < x)
    (hlen : max slow fast + 5 ≤ (prices.length : ℤ))
    (hfs : fast < slow) (hf : 0 < fast) :
    ∃ res, backtest_sma_cross prices fast slow = .ok res ∧
      0 ≤ res.metrics.MaxDrawdown ∧ res.metrics.MaxDrawdown ≤ 1 ∧
      0 ≤ res.metrics.WinRate ∧ res.metrics.WinRate ≤ 1 := by
  refine ⟨_, backtest_ok prices fast slow hlen hfs hf, ?_, ?_, ?_, ?_⟩
  · exact (max_drawdown_bounds _).1
  · exact (max_drawdown_bounds _).2
  · exact (winRate_bounds _).1
  · exact (winRate_bounds _).2

/-- A constant price series long enough for a `2/4` crossover backtest. -/
def c7Prices : List ℚ := List.replicate 9 1

/-- Witness for C7: metric bounds instantiated on a 9-bar constant series
with `fast = 2`, `slow = 4`. -/
theorem backtest_metric_bounds_witness :
    ∃ res, backtest_sma_cross c7Prices 2 4 = .ok res ∧
      0 ≤ res.metrics.MaxDrawdown ∧ res.metrics.MaxDrawdown ≤ 1 ∧
      0 ≤ res.metrics.WinRate ∧ res.metrics.WinRate ≤ 1 :=
  backtest_metric_bounds c7Prices 2 4
    (by intro x hx; rw [List.eq_of_mem_replicate hx]; norm_num)
    (by simp [c7Prices]) (by norm_num) (by norm_num)

/-! ## Parameter optimizer (`backtest.py`, `optimize_sma_grid`) -/

/-- `split_idx = max(1, min(n - 1, int(n * split)))` (backtest.py line
70).  `int` truncates toward zero.  On every input exercised by a claim,
`n * split` is exactly representable in binary floating point after
rounding (e.g. `1000 * 0.7 == 700.0`), so exact rational arithmetic
agrees with the source's float arithmetic there. -/
def splitIdx (n : ℕ) (split : ℚ) : ℕ :=
  (max 1 (min ((n : ℤ) - 1) (ratTrunc ((n : ℚ) * split)))).toNat

/-- The spec's split rule, `round(n·split)` clamped to `[1, n-1]`, stated
for comparison with the source's `int(n·split)` truncation (`splitIdx`).
Modelled from the spec: Python `round` is round-half-to-even. -/
def splitIdxSpec (n : ℕ) (split : ℚ) : ℕ :=
  (max 1 (min ((n : ℤ) - 1) (roundHalfEven ((n : ℚ) * split)))).toNat

theorem splitIdx_eq (n : ℕ) (split : ℚ) (t : ℤ) (h0 : 0 ≤ (n : ℚ) * split)
    (h1 : (t : ℚ) ≤ (n : ℚ) * split) (h2 : (n : ℚ) * split < t + 1) :
    splitIdx n split = (max 1 (min ((n : ℤ) - 1) t)).toNat := by
  unfold splitIdx ratTrunc
  rw [if_pos h0, Int.floor_eq_iff.mpr ⟨h1, h2⟩]

theorem splitIdx_300 : splitIdx 300 (7 / 10) = 210 := by
  rw [splitIdx_eq 300 (7 / 10) 210 (by norm_num) (by push_cast; norm_num)
    (by push_cast; norm_num)]
  decide

theorem splitIdx_261 : splitIdx 261 (7 / 10) = 182 := by
  rw [splitIdx_eq 261 (7 / 10) 182 (by norm_num) (by push_cast; norm_num)
    (by push_cast; norm_num)]
  decide

theorem splitIdx_1000 : splitIdx 1000 (7 / 10) = 700 := by
  rw [splitIdx_eq 1000 (7 / 10) 700 (by norm_num) (by push_cast; norm_num)
    (by push_cast; norm_num)]
  decide

theorem splitIdxSpec_261 : splitIdxSpec 261 (7 / 10) = 183 := by
  have hf : ⌊((261 : ℕ) : ℚ) * (7 / 10)⌋ = 182 :=
    Int.floor_eq_iff.mpr ⟨by push_cast; norm_num, by push_cast; norm_num⟩
  unfold splitIdxSpec roundHalfEven
  rw [hf, if_neg (by push_cast; norm_num), if_pos (by push_cast; norm_num)]
  decide

/-- One row of the optimizer's grid (backtest.py lines 86–89). -/
structure OptRow where
  fast : ℤ
  slow : ℤ
  IS : Metrics
  OS : Metrics

/-- The grid loop of `optimize_sma_grid` (backtest.py lines 74–91):
candidate pairs in sorted-set order, skipping `f ≥ s`, pairs without
enough bars in either segment, and pairs whose backtest raises. -/
noncomputable def gridRows (isP osP : List ℚ) (fvs svs : List ℤ) : List OptRow :=
  ((pySortedSet fvs).map (fun f =>
    (pySortedSet svs).filterMap (fun s =>
      if s ≤ f then none
      else if (isP.length : ℤ) < max f s + 5 ∨ (osP.length : ℤ) < max f s + 5 then none
      else
        match backtest_sma_cross isP f s, backtest_sma_cross osP f s with
        | .ok isRes, .ok osRes => some ⟨f, s, isRes.metrics, osRes.metrics⟩
        | _, _ => none))).flatten

/-- `rows.sort(key=lambda r: r["IS"].get("Sharpe", 0.0), reverse=True)`
(backtest.py line 97): Python's sort is stable, and a stable descending
sort by key is insertion sort under the relation `key b ≤ key a`. -/
noncomputable def rankIS (rows : List OptRow) : List OptRow :=
  List.insertionSort (fun a b => b.IS.Sharpe ≤ a.IS.Sharpe) rows

/-- Python `max(xs, key=lambda r: r["OS"].get("Sharpe", -1e9))`: the
*first* element attaining the maximal key (`max` only replaces its
current candidate on a strictly greater key); `none` models the
`ValueError` Python raises on an empty iterable. -/
noncomputable def pyMaxByOS : List OptRow → Option OptRow
  | [] => none
  | x :: xs =>
    some (xs.foldl (fun acc r => if acc.OS.Sharpe < r.OS.Sharpe then r else acc) x)

/-- The `finalists = rows[:max(1, top_k)]` slice of the ranked rows
(backtest.py line 98). -/
noncomputable def finalistsOf (prices : List ℚ) (fvs svs : List ℤ)
    (split : ℚ) (top_k : ℤ) : List OptRow :=
  (rankIS (gridRows (prices.take (splitIdx prices.length split))
      (prices.drop (splitIdx prices.length split)) fvs svs)).take (max 1 top_k).toNat

/-- The dict returned by `optimize_sma_grid` (backtest.py lines 103–110). -/
structure OptResult where
  split : ℚ
  bars_total : ℕ
  bars_is : ℕ
  bars_os : ℕ
  best : OptRow
  leaderboard : List OptRow

/-- `optimize_sma_grid` (backtest.py lines 58–110) on an already-cleaned
price series.  The `let`-bound intermediates of the source are shared
subexpressions here. -/
noncomputable def optimize_sma_grid (prices : List ℚ) (fast_values slow_values : List ℤ)
    (split : ℚ) (top_k : ℤ) : Except String OptResult :=
  if prices.length < 260 then
    .error "Need at least ~260 bars for a meaningful split."
  else if (gridRows (prices.take (splitIdx prices.length split))
      (prices.drop (splitIdx prices.length split)) fast_values slow_values).isEmpty then
    .error "No valid parameter pairs (fast<slow) with enough data."
  else
    match pyMaxByOS (finalistsOf prices fast_values slow_values split top_k) with
    | none => .error "unreachable in the source: finalists is nonempty"
    | some best =>
      .ok { split := split
            bars_total := prices.length
            bars_is := (prices.take (splitIdx prices.length split)).length
            bars_os := (prices.drop (splitIdx prices.length split)).length
            best := best
            leaderboard := finalistsOf prices fast_values slow_values split top_k }

instance : IsTotal OptRow (fun a b => b.IS.Sharpe ≤ a.IS.Sharpe) :=
  ⟨fun _ _ => le_total _ _⟩

instance : IsTrans OptRow (fun a b => b.IS.Sharpe ≤ a.IS.Sharpe) :=
  ⟨fun _ _ _ h1 h2 => le_trans h2 h1⟩

theorem rankIS_sorted (rows : List OptRow) :
    (rankIS rows).Pairwise (fun a b => b.IS.Sharpe ≤ a.IS.Sharpe) :=
  List.sorted_insertionSort _ rows

theorem rankIS_perm (rows : List OptRow) : List.Perm (rankIS rows) rows :=
  List.perm_insertionSort _ rows

theorem mem_gridRows {isP osP : List ℚ} {fvs svs : List ℤ} {r : OptRow}
    (h : r ∈ gridRows isP osP fvs svs) :
    r.fast < r.slow ∧ max r.fast r.slow + 5 ≤ (isP.length : ℤ) ∧
      max r.fast r.slow + 5 ≤ (osP.length : ℤ) := by
  unfold gridRows at h
  obtain ⟨l, hl, hr⟩ := List.mem_flatten.mp h
  obtain ⟨f, _, hleq⟩ := List.mem_map.mp hl
  subst hleq
  obtain ⟨s, _, hsome⟩ := List.mem_filterMap.mp hr
  split at hsome
  · simp at hsome
  · split at hsome
    · simp at hsome
    · rename_i hfs hbars
      push_neg at hbars
      split at hsome
      · injection hsome with hsome
        subst hsome
        exact ⟨show f < s by omega, hbars.1, hbars.2⟩
      · simp at hsome

theorem pyMax_first_argmax (b : OptRow) (bs : List OptRow) :
    ∃ pre post,
      b :: bs = pre ++
        (bs.foldl (fun acc r => if acc.OS.Sharpe < r.OS.Sharpe then r else acc) b) :: post ∧
      (∀ p ∈ pre,
        p.OS.Sharpe <
          (bs.foldl (fun acc r => if acc.OS.Sharpe < r.OS.Sharpe then r else acc) b).OS.Sharpe) ∧
      (∀ r ∈ b :: bs,
        r.OS.Sharpe ≤
          (bs.foldl (fun acc r => if acc.OS.Sharpe < r.OS.Sharpe then r else acc) b).OS.Sharpe) := by
  induction bs generalizing b with
  | nil => exact ⟨[], [], rfl, by simp, by simp⟩
  | cons y ys ih =>
    rw [List.foldl_cons]
    by_cases hby : b.OS.Sharpe < y.OS.Sharpe
    · rw [if_pos hby]
      obtain ⟨pre, post, hdec, hpre, hall⟩ := ih y
      refine ⟨b :: pre, post, ?_, ?_, ?_⟩
      · rw [List.cons_append, ← hdec]
      · intro p hp
        rcases List.mem_cons.mp hp with rfl | hp
        · exact lt_of_lt_of_le hby (hall y (List.mem_cons_self _ _))
        · exact hpre p hp
      · intro r hr
        rcases List.mem_cons.mp hr with rfl | hr
        · exact le_of_lt (lt_of_lt_of_le hby (hall y (List.mem_cons_self _ _)))
        · exact hall r hr
    · rw [if_neg hby]
      obtain ⟨pre, post, hdec, hpre, hall⟩ := ih b
      cases pre with
      | nil =>
        rw [List.nil_append] at hdec
        injection hdec with hb hpost
        refine ⟨[], y :: ys, ?_, by simp, ?_⟩
        · rw [List.nil_append, ← hb]
        · intro r hr
          rcases List.mem_cons.mp hr with rfl | hr
          · exact le_of_eq (congrArg (fun z => z.OS.Sharpe) hb)
          · rcases List.mem_cons.mp hr with rfl | hr
            · rw [← hb]
              exact le_of_not_lt hby
            · exact hall r (List.mem_cons_of_mem _ hr)
      | cons q pre' =>
        rw [List.cons_append] at hdec
        injection hdec with hq hys
        subst hq
        refine ⟨b :: y :: pre', post, ?_, ?_, ?_⟩
        · rw [List.cons_append, List.cons_append, ← hys]
        · intro p hp
          have hbm : b.OS.Sharpe <
              (ys.foldl (fun acc r => if acc.OS.Sharpe < r.OS.Sharpe then r else acc)
                b).OS.Sharpe :=
            hpre b (List.mem_cons_self _ _)
          rcases List.mem_cons.mp hp with rfl | hp
          · exact hbm
          · rcases List.mem_cons.mp hp with rfl | hp
            · exact lt_of_le_of_lt (le_of_not_lt hby) hbm
            · exact hpre p (List.mem_cons_of_mem _ hp)
        · intro r hr
          rcases List.mem_cons.mp hr with rfl | hr
          · exact hall r (List.mem_cons_self _ _)
          · rcases List.mem_cons.mp hr with rfl | hr
            · exact le_trans (le_of_not_lt hby) (hall b (List.mem_cons_self _ _))
            · exact hall r (List.mem_cons_of_mem _ hr)

theorem optimize_ok (prices : List ℚ) (fvs svs : List ℤ) (split : ℚ) (top_k : ℤ)
    (hn : 260 ≤ prices.length) (b : OptRow) (bs : List OptRow)
    (hfin : finalistsOf prices fvs svs split top_k = b :: bs) :
    optimize_sma_grid prices fvs svs split top_k =
      .ok { split := split
            bars_total := prices.length
            bars_is := (prices.take (splitIdx prices.length split)).length
            bars_os := (prices.drop (splitIdx prices.length split)).length
            best := bs.foldl (fun acc r => if acc.OS.Sharpe < r.OS.Sharpe then r else acc) b
            leaderboard := b :: bs } := by
  have hrows : ¬ (gridRows (prices.take (splitIdx prices.length split))
      (prices.drop (splitIdx prices.length split)) fvs svs).isEmpty = true := by
    intro h0
    rw [List.isEmpty_iff] at h0
    unfold finalistsOf at hfin
    rw [h0] at hfin
    simp [rankIS, List.insertionSort] at hfin
  unfold optimize_sma_grid
  rw [if_neg (not_lt.mpr hn), if_neg hrows, hfin]
  rfl

theorem finalists_cons (prices : List ℚ) (fvs svs : List ℤ) (split : ℚ) (top_k : ℤ)
    (hnz : gridRows (prices.take (splitIdx prices.length split))
      (prices.drop (splitIdx prices.length split)) fvs svs ≠ []) :
    ∃ b bs, finalistsOf prices fvs svs split top_k = b :: bs := by
  have hne : rankIS (gridRows (prices.take (splitIdx prices.length split))
      (prices.drop (splitIdx prices.length split)) fvs svs) ≠ [] := by
    intro h0
    have hp := rankIS_perm (gridRows (prices.take (splitIdx prices.length split))
      (prices.drop (splitIdx prices.length split)) fvs svs)
    rw [h0] at hp
    exact hnz hp.symm.eq_nil
  obtain ⟨a, l, hal⟩ := List.exists_cons_of_ne_nil hne
  obtain ⟨k, hk'⟩ : ∃ k, (max 1 top_k).toNat = k + 1 := by
    have := le_max_left 1 top_k
    exact ⟨(max 1 top_k).toNat - 1, by omega⟩
  exact ⟨a, l.take k, by unfold finalistsOf; rw [hal, hk', List.take_succ_cons]⟩

/-- **C3**: whenever `optimize_sma_grid` returns, every leaderboard entry
satisfies `fast < slow` with enough bars (`max(fast,slow)+5`) in both
segments; the leaderboard is the `max(1, top_k)`-prefix of the stable
IS-Sharpe-descending ranking of the valid rows (sorted descending,
dominating every row it excludes, and drawn from the rows); and the best
entry is the first leaderboard member attaining the maximal OS Sharpe. -/
theorem optimize_selection_spec (prices : List ℚ) (fvs svs : List ℤ)
    (split : ℚ) (top_k : ℤ) (hn : 260 ≤ prices.length)
    (hnz : gridRows (prices.take (splitIdx prices.length split))
      (prices.drop (splitIdx prices.length split)) fvs svs ≠ []) :
    ∃ res, optimize_sma_grid prices fvs svs split top_k = .ok res ∧
      (∀ r ∈ res.leaderboard, r.fast < r.slow ∧
        max r.fast r.slow + 5 ≤ (res.bars_is : ℤ) ∧
        max r.fast r.slow + 5 ≤ (res.bars_os : ℤ)) ∧
      res.leaderboard = finalistsOf prices fvs svs split top_k ∧
      res.leaderboard.Pairwise (fun a b => b.IS.Sharpe ≤ a.IS.Sharpe) ∧
      (∀ d ∈ (rankIS (gridRows (prices.take (splitIdx prices.length split))
          (prices.drop (splitIdx prices.length split)) fvs svs)).drop (max 1 top_k).toNat,
        ∀ l ∈ res.leaderboard, d.IS.Sharpe ≤ l.IS.Sharpe) ∧
      res.leaderboard.Subperm (gridRows (prices.take (splitIdx prices.length split))
        (prices.drop (splitIdx prices.length split)) fvs svs) ∧
      (∃ pre post, res.leaderboard = pre ++ res.best :: post ∧
        ∀ p ∈ pre, p.OS.Sharpe < res.best.OS.Sharpe) ∧
      (∀ r ∈ res.leaderboard, r.OS.Sharpe ≤ res.best.OS.Sharpe) := by
  obtain ⟨b, bs, hfin⟩ := finalists_cons prices fvs svs split top_k hnz
  refine ⟨_, optimize_ok prices fvs svs split top_k hn b bs hfin, ?_, hfin.symm, ?_, ?_, ?_,
    ?_, ?_⟩
  · intro r hr
    simp only at hr
    have hr' : r ∈ finalistsOf prices fvs svs split top_k := hfin ▸ hr
    have hmem : r ∈ gridRows (prices.take (splitIdx prices.length split))
        (prices.drop (splitIdx prices.length split)) fvs svs :=
      (rankIS_perm _).subset ((List.take_sublist _ _).subset hr')
    simpa using mem_gridRows hmem
  · exact hfin ▸ (List.Pairwise.sublist (List.take_sublist _ _) (rankIS_sorted _))
  · intro d hd l hl
    have hsorted := rankIS_sorted (gridRows (prices.take (splitIdx prices.length split))
      (prices.drop (splitIdx prices.length split)) fvs svs)
    rw [← List.take_append_drop (max 1 top_k).toNat
      (rankIS (gridRows (prices.take (splitIdx prices.length split))
        (prices.drop (splitIdx prices.length split)) fvs svs))] at hsorted
    have hl' : l ∈ (rankIS (gridRows (prices.take (splitIdx prices.length split))
        (prices.drop (splitIdx prices.length split)) fvs svs)).take (max 1 top_k).toNat := by
      have : l ∈ finalistsOf prices fvs svs split top_k := hfin ▸ hl
      exact this
    exact (List.pairwise_append.mp hsorted).2.2 l hl' d hd
  · have h1 : (b :: bs).Sublist (rankIS (gridRows (prices.take (splitIdx prices.length split))
        (prices.drop (splitIdx prices.length split)) fvs svs)) := by
      rw [← hfin]
      exact List.take_sublist _ _
    exact h1.subperm.trans (rankIS_perm _).subperm
  · obtain ⟨pre, post, hdec, hpre, _⟩ := pyMax_first_argmax b bs
    exact ⟨pre, post, hdec, hpre⟩
  · obtain ⟨_, _, _, _, hall⟩ := pyMax_first_argmax b bs
    exact hall

/-- A 300-bar constant series: `splitIdx` gives 210 in-sample and 90
out-of-sample bars, enough for the single candidate pair (10, 50). -/
def c3Prices : List ℚ := List.replicate 300 1

set_option maxRecDepth 100000

/-- Witness for C3: the selection spec instantiated on `c3Prices` with
candidate grids `[10]` / `[50]`, `split = 0.7`, `top_k = 5`. -/
theorem optimize_selection_spec_witness :
    ∃ res, optimize_sma_grid c3Prices [10] [50] (7 / 10) 5 = .ok res ∧
      (∀ r ∈ res.leaderboard, r.fast < r.slow ∧
        max r.fast r.slow + 5 ≤ (res.bars_is : ℤ) ∧
        max r.fast r.slow + 5 ≤ (res.bars_os : ℤ)) ∧
      res.leaderboard = finalistsOf c3Prices [10] [50] (7 / 10) 5 ∧
      res.leaderboard.Pairwise (fun a b => b.IS.Sharpe ≤ a.IS.Sharpe) ∧
      (∀ d ∈ (rankIS (gridRows (c3Prices.take (splitIdx c3Prices.length (7 / 10)))
          (c3Prices.drop (splitIdx c3Prices.length (7 / 10))) [10] [50])).drop
            (max 1 (5 : ℤ)).toNat,
        ∀ l ∈ res.leaderboard, d.IS.Sharpe ≤ l.IS.Sharpe) ∧
      res.leaderboard.Subperm (gridRows (c3Prices.take (splitIdx c3Prices.length (7 / 10)))
        (c3Prices.drop (splitIdx c3Prices.length (7 / 10))) [10] [50]) ∧
      (∃ pre post, res.leaderboard = pre ++ res.best :: post ∧
        ∀ p ∈ pre, p.OS.Sharpe < res.best.OS.Sharpe) ∧
      (∀ r ∈ res.leaderboard, r.OS.Sharpe ≤ res.best.OS.Sharpe) :=
  optimize_selection_spec c3Prices [10] [50] (7 / 10) 5
    (by
      show (260 : ℕ) ≤ (List.replicate 300 (1 : ℚ)).length
      rw [List.length_replicate]
      norm_num)
    (by
      have hlen : c3Prices.length = 300 := List.length_replicate 300 1
      have hsp : splitIdx c3Prices.length (7 / 10) = 210 := by rw [hlen]; exact splitIdx_300
      rw [hsp]
      intro h0
      have h1 : (gridRows (c3Prices.take 210) (c3Prices.drop 210) [10] [50]).length = 1 := rfl
      rw [h0] at h1
      simp at h1)

/-- **C6 counterexample**: `optimize_sma_grid` truncates `n·split`
(Python `int(...)`, backtest.py line 70) instead of rounding it as the
claim states: at `n = 261`, `split = 0.7` (so `n·split = 182.7`) the
source splits at index 182 while the claimed `round(n·split)` rule gives
183. -/
theorem split_rule_counterexample :
    splitIdx 261 (7 / 10) = 182 ∧ splitIdxSpec 261 (7 / 10) = 183 ∧
      splitIdx 261 (7 / 10) ≠ splitIdxSpec 261 (7 / 10) := by
  refine ⟨splitIdx_261, splitIdxSpec_261, ?_⟩
  rw [splitIdx_261, splitIdxSpec_261]
  decide

/-- **C6 (amended)**: `optimize_sma_grid` splits the series
chronologically at index `int(n·split)` — truncation, not rounding —
clamped to `[1, n-1]`; the in-sample segment is the prefix of length
`bars_is` and the out-of-sample segment the matching suffix; and for
`n = 1000`, `split = 0.7` the truncated index is exactly 700, giving
700/300 bars (the float product `1000 * 0.7` is exactly `700.0`). -/
theorem optimize_split_spec (prices : List ℚ) (fvs svs : List ℤ) (split : ℚ) (top_k : ℤ)
    (hn : 260 ≤ prices.length)
    (hnz : gridRows (prices.take (splitIdx prices.length split))
      (prices.drop (splitIdx prices.length split)) fvs svs ≠ []) :
    ∃ res, optimize_sma_grid prices fvs svs split top_k = .ok res ∧
      res.bars_total = prices.length ∧
      res.bars_is = splitIdx prices.length split ∧
      res.bars_os = prices.length - splitIdx prices.length split ∧
      1 ≤ splitIdx prices.length split ∧
      splitIdx prices.length split ≤ prices.length - 1 ∧
      prices.take (splitIdx prices.length split) ++
        prices.drop (splitIdx prices.length split) = prices ∧
      splitIdx 1000 (7 / 10) = 700 ∧ 1000 - splitIdx 1000 (7 / 10) = 300 := by
  obtain ⟨b, bs, hfin⟩ := finalists_cons prices fvs svs split top_k hnz
  have hle : splitIdx prices.length split ≤ prices.length - 1 := by
    unfold splitIdx
    omega
  refine ⟨_, optimize_ok prices fvs svs split top_k hn b bs hfin, rfl, ?_, ?_, ?_, hle, ?_,
    splitIdx_1000, ?_⟩
  · show (prices.take (splitIdx prices.length split)).length = splitIdx prices.length split
    rw [List.length_take]
    omega
  · show (prices.drop (splitIdx prices.length split)).length =
      prices.length - splitIdx prices.length split
    rw [List.length_drop]
  · unfold splitIdx
    omega
  · exact List.take_append_drop _ _
  · rw [splitIdx_1000]

/-- A 261-bar constant series: the truncated split gives 182 in-sample
and 79 out-of-sample bars. -/
def c6Prices : List ℚ := List.replicate 261 1

/-- Witness for the amended C6: the split spec instantiated on
`c6Prices` with candidate grids `[10]` / `[50]`, `split = 0.7`. -/
theorem optimize_split_spec_witness :
    ∃ res, optimize_sma_grid c6Prices [10] [50] (7 / 10) 5 = .ok res ∧
      res.bars_total = c6Prices.length ∧
      res.bars_is = splitIdx c6Prices.length (7 / 10) ∧
      res.bars_os = c6Prices.length - splitIdx c6Prices.length (7 / 10) ∧
      1 ≤ splitIdx c6Prices.length (7 / 10) ∧
      splitIdx c6Prices.length (7 / 10) ≤ c6Prices.length - 1 ∧
      c6Prices.take (splitIdx c6Prices.length (7 / 10)) ++
        c6Prices.drop (splitIdx c6Prices.length (7 / 10)) = c6Prices ∧
      splitIdx 1000 (7 / 10) = 700 ∧ 1000 - splitIdx 1000 (7 / 10) = 300 :=
  optimize_split_spec c6Prices [10] [50] (7 / 10) 5
    (by
      show (260 : ℕ) ≤ (List.replicate 261 (1 : ℚ)).length
      rw [List.length_replicate]
      norm_num)
    (by
      have hlen : c6Prices.length = 261 := List.length_replicate 261 1
      have hsp : splitIdx c6Prices.length (7 / 10) = 182 := by rw [hlen]; exact splitIdx_261
      rw [hsp]
      intro h0
      have h1 : (gridRows (c6Prices.take 182) (c6Prices.drop 182) [10] [50]).length = 1 := rfl
      rw [h0] at h1
      simp at h1)

/-! ## Signal engine (`agent.py`) -/

/-- The per-symbol outcome of `MarketAgent.analyze` as consumed by
`screen` (agent.py lines 39–44).  Analysis itself calls live price and
news providers, so `screen` is modelled over an arbitrary analyze
oracle.  Rationals have no NaN, so the `confidence == confidence` NaN
guard of line 42 is the identity here. -/
structure AnalysisRow where
  symbol : String
  recommendation : String
  confidence : ℚ
deriving DecidableEq

/-- The `{"results": ..., "errors": ...}` dict returned by `screen`. -/
structure ScreenOutput where
  results : List AnalysisRow
  errors : List (String × String)
deriving DecidableEq

/-- The loop of `MarketAgent.screen` (agent.py lines 35–47).  The
handler on line 45 is `except Exception:` *without* `as e`, yet its body
evaluates `str(e)`; no `e` is in scope anywhere in agent.py, so the
handler itself raises `NameError`, which propagates out of `screen`.
Line 47 sorts the surviving results by confidence, stable descending. -/
def screenGo (analyzeFn : String → Except String AnalysisRow) :
    List String → List AnalysisRow → List (String × String) → Except PyErr ScreenOutput
  | [], results, errors =>
    .ok { results := List.insertionSort (fun a b => b.confidence ≤ a.confidence) results,
          errors := errors }
  | s :: rest, results, errors =>
    match analyzeFn s with
    | .ok r => screenGo analyzeFn rest (results ++ [r]) errors
    | .error _ => .error (.nameError "name e is not defined")

/-- `MarketAgent.screen` (agent.py lines 34–48). -/
def screen (analyzeFn : String → Except String AnalysisRow) (symbols : List String) :
    Except PyErr ScreenOutput :=
  screenGo analyzeFn symbols [] []

/-- An analyze oracle that fails on symbol `"BAD"` (e.g. no price
history) and succeeds on every other symbol. -/
def c4Analyze (s : String) : Except String AnalysisRow :=
  if s = "BAD" then .error "No price data for BAD"
  else .ok { symbol := s, recommendation := "HOLD", confidence := 1 / 2 }

/-- **C4** (code bug): when a single symbol's analysis raises during the
screen batch, the broken handler (`except Exception:` with a body that
reads the unbound name `e`) raises `NameError`: the failure is *not*
recorded in `errors`, the symbol after it is never analyzed, and the
whole batch aborts instead of continuing. -/
theorem screen_aborts_on_failure :
    screen c4Analyze ["BAD", "GOOD"] = .error (.nameError "name e is not defined") := by rfl

/-- The weights dict `w` (agent.py line 112). -/
def weights : List (String × ℚ) :=
  [("momentum", 45 / 100), ("rsi", 20 / 100), ("trend", 15 / 100), ("sentiment", 20 / 100)]

/-- `w[k]` lookup. -/
def weightOf (k : String) : ℚ :=
  ((weights.find? (fun kv => kv.1 == k)).map (fun kv => kv.2)).getD 0

/-- The RSI score mapping (agent.py lines 97–105); `none` models a NaN
last RSI value (insufficient history). -/
def rsiScoreOf : Option ℚ → ℚ
  | none => 1 / 2
  | some v => if 70 ≤ v then 2 / 10 else if v ≤ 30 then 8 / 10 else 1 / 2

/-- `overall` (agent.py lines 113–118). -/
def overallScore (momScore rsiScore trendVal sentScore : ℚ) : ℚ :=
  weightOf "momentum" * momScore + weightOf "rsi" * rsiScore +
    weightOf "trend" * trendVal + weightOf "sentiment" * sentScore

/-- The recommendation threshold (agent.py line 120). -/
def recommendationOf (overall : ℚ) : String :=
  if 60 / 100 < overall then "BUY" else if 40 / 100 < overall then "HOLD" else "SELL"

/-- The scoring tail of `MarketAgent.analyze` (agent.py lines 93–139):
inputs are the squashed momentum score (the `tanh` squash of line 95
happens upstream of this boundary), the last valid RSI value (`none` =
NaN), the trend flag and the raw sentiment compound; outputs are the
blended `overall` and the recommendation. -/
def analyzeScores (momScore : ℚ) (rsiVal : Option ℚ) (trendVal sentRaw : ℚ) : ℚ × String :=
  (overallScore momScore (rsiScoreOf rsiVal) trendVal ((sentRaw + 1) / 2),
   recommendationOf (overallScore momScore (rsiScoreOf rsiVal) trendVal ((sentRaw + 1) / 2)))

theorem weightOf_momentum : weightOf "momentum" = 45 / 100 := rfl

theorem weightOf_rsi : weightOf "rsi" = 20 / 100 := rfl

theorem weightOf_trend : weightOf "trend" = 15 / 100 := rfl

theorem weightOf_sentiment : weightOf "sentiment" = 20 / 100 := rfl

/-- **C8**: `overall` is the fixed convex combination
`0.45·momentum + 0.20·rsi + 0.15·trend + 0.20·sentiment` of the four
sub-scores; the recommendation is the deterministic threshold function of
`overall` (`>0.60 → BUY`, `>0.40 → HOLD`, else `SELL`); and the scenario
overalls 0.65 / 0.50 / 0.25 yield BUY / HOLD / SELL, each realized by a
concrete analysis. -/
theorem analyze_blend_spec :
    (∀ (m : ℚ) (rv : Option ℚ) (t s : ℚ),
      (analyzeScores m rv t s).1 =
        45 / 100 * m + 20 / 100 * rsiScoreOf rv + 15 / 100 * t +
          20 / 100 * ((s + 1) / 2) ∧
      (analyzeScores m rv t s).2 = recommendationOf (analyzeScores m rv t s).1) ∧
    recommendationOf (65 / 100) = "BUY" ∧
    recommendationOf (50 / 100) = "HOLD" ∧
    recommendationOf (25 / 100) = "SELL" ∧
    analyzeScores 1 none 0 0 = (65 / 100, "BUY") ∧
    analyzeScores (2 / 3) none 0 0 = (50 / 100, "HOLD") ∧
    analyzeScores (1 / 9) none 0 0 = (25 / 100, "SELL") := by
  have hBUY : recommendationOf (65 / 100) = "BUY" := by
    unfold recommendationOf
    rw [if_pos (by norm_num)]
  have hHOLD : recommendationOf (50 / 100) = "HOLD" := by
    unfold recommendationOf
    rw [if_neg (by norm_num), if_pos (by norm_num)]
  have hSELL : recommendationOf (25 / 100) = "SELL" := by
    unfold recommendationOf
    rw [if_neg (by norm_num), if_neg (by norm_num)]
  have h65 : overallScore 1 (rsiScoreOf none) 0 ((0 + 1) / 2) = 65 / 100 := by
    unfold overallScore
    rw [weightOf_momentum, weightOf_rsi, weightOf_trend, weightOf_sentiment]
    unfold rsiScoreOf
    norm_num
  have h50 : overallScore (2 / 3) (rsiScoreOf none) 0 ((0 + 1) / 2) = 50 / 100 := by
    unfold overallScore
    rw [weightOf_momentum, weightOf_rsi, weightOf_trend, weightOf_sentiment]
    unfold rsiScoreOf
    norm_num
  have h25 : overallScore (1 / 9) (rsiScoreOf none) 0 ((0 + 1) / 2) = 25 / 100 := by
    unfold overallScore
    rw [weightOf_momentum, weightOf_rsi, weightOf_trend, weightOf_sentiment]
    unfold rsiScoreOf
    norm_num
  refine ⟨?_, hBUY, hHOLD, hSELL, ?_, ?_, ?_⟩
  · intro m rv t s
    constructor
    · unfold analyzeScores overallScore
      rw [weightOf_momentum, weightOf_rsi, weightOf_trend, weightOf_sentiment]
    · rfl
  · unfold analyzeScores
    rw [h65, hBUY]
  · unfold analyzeScores
    rw [h50, hHOLD]
  · unfold analyzeScores
    rw [h25, hSELL]

/-! ## Run memory (`agentic/memory.py`) -/

/-- The fields of a memory record consulted by `last_best_params`;
`none` models JSON null or an absent key. -/
structure MemRecord where
  top_pick : Option String
  best_params : Option (Option ℤ × Option ℤ)
deriving DecidableEq

/-- `recent(n)` (memory.py lines 15–20): the last `n` records of the
append-only memory file, in chronological order. -/
def recent (mem : List MemRecord) (n : ℕ) : List MemRecord :=
  mem.drop (mem.length - n)

/-- The scan of `last_best_params` (memory.py lines 30–35): the guard
`bp and bp.get("fast") and bp.get("slow")` is Python truthiness, i.e.
both parameters present and *nonzero*. -/
def lastBestScan (symbol : String) : List MemRecord → Option (ℤ × ℤ)
  | [] => none
  | r :: rest =>
    if r.top_pick = some symbol then
      match r.best_params with
      | some (some f, some s) =>
        if f ≠ 0 ∧ s ≠ 0 then some (f, s) else lastBestScan symbol rest
      | _ => lastBestScan symbol rest
    else lastBestScan symbol rest

/-- `last_best_params` (memory.py lines 29–35): scan the last 50 records
newest-first. -/
def last_best_params (mem : List MemRecord) (symbol : String) : Option (ℤ × ℤ) :=
  lastBestScan symbol (recent mem 50).reverse

/-- A record that stops the `last_best_params` scan: matching `top_pick`
and truthy (present, nonzero) `fast` and `slow`. -/
def MemRecord.hits (r : MemRecord) (symbol : String) : Prop :=
  r.top_pick = some symbol ∧
    ∃ f s, r.best_params = some (some f, some s) ∧ f ≠ 0 ∧ s ≠ 0

theorem scan_skip_extend (symbol : String) (r : MemRecord) (rest : List MemRecord)
    (hnh : ¬ r.hits symbol)
    (hstep : lastBestScan symbol (r :: rest) = lastBestScan symbol rest)
    (ih : match lastBestScan symbol rest with
      | some p => ∃ pre x post, rest = pre ++ x :: post ∧
          x.top_pick = some symbol ∧ x.best_params = some (some p.1, some p.2) ∧
          p.1 ≠ 0 ∧ p.2 ≠ 0 ∧ ∀ q ∈ pre, ¬ q.hits symbol
      | none => ∀ x ∈ rest, ¬ x.hits symbol) :
    match lastBestScan symbol (r :: rest) with
    | some p => ∃ pre x post, r :: rest = pre ++ x :: post ∧
        x.top_pick = some symbol ∧ x.best_params = some (some p.1, some p.2) ∧
        p.1 ≠ 0 ∧ p.2 ≠ 0 ∧ ∀ q ∈ pre, ¬ q.hits symbol
    | none => ∀ x ∈ r :: rest, ¬ x.hits symbol := by
  rw [hstep]
  cases hscan : lastBestScan symbol rest with
  | none =>
    rw [hscan] at ih
    intro x hx
    rcases List.mem_cons.mp hx with rfl | hx
    · exact hnh
    · exact ih x hx
  | some p =>
    rw [hscan] at ih
    obtain ⟨pre, x, post, hdec, h1, h2, h3, h4, h5⟩ := ih
    refine ⟨r :: pre, x, post, by rw [hdec, List.cons_append], h1, h2, h3, h4, ?_⟩
    intro q hq
    rcases List.mem_cons.mp hq with rfl | hq
    · exact hnh
    · exact h5 q hq

theorem lastBestScan_spec (symbol : String) (l : List MemRecord) :
    match lastBestScan symbol l with
    | some p => ∃ pre r post, l = pre ++ r :: post ∧
        r.top_pick = some symbol ∧ r.best_params = some (some p.1, some p.2) ∧
        p.1 ≠ 0 ∧ p.2 ≠ 0 ∧ ∀ q ∈ pre, ¬ q.hits symbol
    | none => ∀ r ∈ l, ¬ r.hits symbol := by
  induction l with
  | nil =>
    simp only [lastBestScan]
    intro r hr
    cases hr
  | cons r rest ih =>
    by_cases htp : r.top_pick = some symbol
    · rcases hbp : r.best_params with _ | ⟨_ | f, so⟩
      · refine scan_skip_extend symbol r rest ?_ ?_ ih
        · rintro ⟨_, f', s', h, _, _⟩
          rw [hbp] at h
          cases h
        · simp [lastBestScan, htp, hbp]
      · refine scan_skip_extend symbol r rest ?_ ?_ ih
        · rintro ⟨_, f', s', h, _, _⟩
          rw [hbp] at h
          injection h with h
          injection h with h1 h2
          cases h1
        · simp [lastBestScan, htp, hbp]
      · rcases so with _ | s
        · refine scan_skip_extend symbol r rest ?_ ?_ ih
          · rintro ⟨_, f', s', h, _, _⟩
            rw [hbp] at h
            injection h with h
            injection h with h1 h2
            cases h2
          · simp [lastBestScan, htp, hbp]
        · by_cases hfs : f ≠ 0 ∧ s ≠ 0
          · have hstep : lastBestScan symbol (r :: rest) = some (f, s) := by
              simp [lastBestScan, htp, hbp, hfs.1, hfs.2]
            rw [hstep]
            exact ⟨[], r, rest, rfl, htp, hbp, hfs.1, hfs.2, by simp⟩
          · refine scan_skip_extend symbol r rest ?_ ?_ ih
            · rintro ⟨_, f', s', h, hf', hs'⟩
              rw [hbp] at h
              injection h with h
              injection h with h1 h2
              injection h1 with h1
              injection h2 with h2
              exact hfs ⟨h1 ▸ hf', h2 ▸ hs'⟩
            · simp [lastBestScan, htp, hbp, hfs]
    · refine scan_skip_extend symbol r rest (fun hh => htp hh.1) ?_ ih
      simp [lastBestScan, htp]

/-- **C9 (amended)**: `last_best_params` scans the most recent 50 records
newest-first and returns the `(fast, slow)` pair of the first record whose
`top_pick` matches the symbol and whose `best_params` values are both
present and *truthy* (nonzero — not necessarily positive); it returns
`none` exactly when no such record exists among the recent records. -/
theorem last_best_params_spec (mem : List MemRecord) (symbol : String) :
    match last_best_params mem symbol with
    | some p => ∃ pre r post, (recent mem 50).reverse = pre ++ r :: post ∧
        r.top_pick = some symbol ∧ r.best_params = some (some p.1, some p.2) ∧
        p.1 ≠ 0 ∧ p.2 ≠ 0 ∧ ∀ q ∈ pre, ¬ q.hits symbol
    | none => ∀ r ∈ recent mem 50, ¬ r.hits symbol := by
  unfold last_best_params
  cases hscan : lastBestScan symbol (recent mem 50).reverse with
  | none =>
    have := lastBestScan_spec symbol (recent mem 50).reverse
    rw [hscan] at this
    intro r hr
    exact this r (List.mem_reverse.mpr hr)
  | some p =>
    have := lastBestScan_spec symbol (recent mem 50).reverse
    rw [hscan] at this
    exact this

/-- A one-record memory whose remembered `fast` parameter is negative. -/
def c9Mem : List MemRecord :=
  [{ top_pick := some "AAA", best_params := some (some (-5), some 200) }]

/-- **C9 counterexample**: a matching record whose `fast` is `-5` is not
skipped — the source tests Python truthiness (nonzero), not positivity —
so `last_best_params` returns `(-5, 200)` even though `-5 > 0` fails,
refuting the claimed "both values present and positive" filter. -/
theorem last_best_params_counterexample :
    last_best_params c9Mem "AAA" = some (-5, 200) ∧ ¬ (0 < (-5 : ℤ)) := by decide

end AgenticMR
